import Mathlib

/-!
Verification development for the job scraping, deduplication and enrichment
pipeline of the `autoapply-be` backend.

The definitions below are a shallow embedding of the Python source:

* `src/jobs/services.py` — the `LinkedInJobScraper` class: `parse_job_card`,
  `search_jobs` (paginated search loop) and `get_job_details` (detail page
  parsing, layered posted-date fallback);
* `src/jobs/routers.py` — the orchestration endpoint `search_jobs`
  (limit splitting, per-profile search fan-out, dedup by job id, batched
  existence check, enrichment loop, store writes) and `create_job_from_url`;
* `src/jobs/models.py` — the persisted `JobListing` record.

Modelling conventions: timestamps are integers (seconds); HTML pages are
structures holding exactly the element texts and attributes that the parsing
code touches (an attribute that is absent is `none`); network calls are
oracles passed as function arguments, with `Except` for calls whose failure
raises and `Option` where the Python absorbs the exception; Python dicts with
optional keys become structures with `Option` fields; the store is a list of
`JobListing` ordered by creation time (Django `created_at` ascending).
-/

namespace AutoApply

/-- Decides whether the character list `n` occurs contiguously inside `hay`;
embeds Python's substring test `n in hay` used by
`services.get_job_details` (unit and criteria-header checks). -/
def containsSeq (n : List Char) : List Char → Bool
  | [] => n.isPrefixOf []
  | c :: cs => n.isPrefixOf (c :: cs) || containsSeq n cs

/-- Maximal digit run at the head of a character list, with the remainder;
embeds the greedy regex atom `\d+` anchored at the current position. -/
def takeDigits (cs : List Char) : List Char × List Char :=
  (cs.takeWhile Char.isDigit, cs.dropWhile Char.isDigit)

/-- Numeric value of a digit run, as Python's `int(...)` computes it. -/
def digitsVal (ds : List Char) : Nat :=
  ds.foldl (fun n c => n * 10 + (c.toNat - 48)) 0

/-- Requires at least one whitespace character and drops the whole run;
embeds the regex atom `\s+`. -/
def takeSpaces (cs : List Char) : Option (List Char) :=
  match cs with
  | [] => none
  | c :: rest => if c.isWhitespace then some (rest.dropWhile Char.isWhitespace) else none

/-- Case-insensitive literal match of `w` at the head of `cs`, returning the
remainder; embeds a case-folded literal of the `re.I` regexes in
`services.py`. -/
def matchWordCI (w : List Char) (cs : List Char) : Option (List Char) :=
  match w, cs with
  | [], rest => some rest
  | _ :: _, [] => none
  | a :: ws, c :: rest => if c.toLower = a.toLower then matchWordCI ws rest else none

/-- After the digits and whitespace of the relative-date pattern, tries the
unit alternatives in the order of the source regex
`(day|days|hour|hours|week|weeks|month|months)` and then requires
whitespace followed by `ago`; returns the lower-cased matched unit.
Embeds the tail of the pattern in `services.get_job_details`
(`r'(\d+)\s+(day|days|hour|hours|week|weeks|month|months)\s+ago'`, `re.I`),
with the backtracking of the alternation folded in: an alternative counts
only if the whole continuation succeeds. -/
def matchUnitAgo (cs : List Char) : Option String :=
  let tryOne : String → Option String := fun u =>
    match matchWordCI u.data cs with
    | none => none
    | some rest =>
      match takeSpaces rest with
      | none => none
      | some rest2 =>
        match matchWordCI "ago".data rest2 with
        | none => none
        | some _ => some u
  match tryOne "day" with
  | some u => some u
  | none =>
  match tryOne "days" with
  | some u => some u
  | none =>
  match tryOne "hour" with
  | some u => some u
  | none =>
  match tryOne "hours" with
  | some u => some u
  | none =>
  match tryOne "week" with
  | some u => some u
  | none =>
  match tryOne "weeks" with
  | some u => some u
  | none =>
  match tryOne "month" with
  | some u => some u
  | none => tryOne "months"

/-- Attempts the relative-date pattern anchored at the current position:
digit run, whitespace, unit, whitespace, `ago`. -/
def matchRelAt (cs : List Char) : Option (Nat × String) :=
  let (ds, rest) := takeDigits cs
  if ds.isEmpty then none
  else
    match takeSpaces rest with
    | none => none
    | some rest2 =>
      match matchUnitAgo rest2 with
      | none => none
      | some u => some (digitsVal ds, u)

/-- Leftmost search of the relative-date pattern inside a text, as
`re.search` performs it: each starting position is tried left to right (a
failed start inside a digit run retries at the next digit, matching the
regex backtracking behaviour). -/
def matchRelDate : List Char → Option (Nat × String)
  | [] => none
  | c :: cs =>
    if c.isDigit then
      match matchRelAt (c :: cs) with
      | some r => some r
      | none => matchRelDate cs
    else matchRelDate cs

/-- First element text (in document order) that matches the relative-date
pattern; embeds the `for elem in soup.find_all(['span', 'div', 'p', 'time'])`
loop of `services.get_job_details`, which breaks at the first match. -/
def firstRelMatch : List String → Option (Nat × String)
  | [] => none
  | t :: ts =>
    match matchRelDate t.data with
    | some r => some r
    | none => firstRelMatch ts

/-- Turns a matched relative date into an absolute timestamp; embeds the
`if 'day' in unit ... elif 'hour' ... elif 'week' ... elif 'month'` chain of
`services.get_job_details` with `timedelta` rendered in seconds (a month is
approximated as 30 days, exactly as `timedelta(days=value * 30)`). -/
def relDelta (now : Int) (value : Nat) (unit : String) : Option Int :=
  if containsSeq "day".data unit.data then some (now - value * 86400)
  else if containsSeq "hour".data unit.data then some (now - value * 3600)
  else if containsSeq "week".data unit.data then some (now - value * 604800)
  else if containsSeq "month".data unit.data then some (now - value * 30 * 86400)
  else none

/-- Regex `r'/view/(\d+)'` applied with `re.search` to a card link href in
`services.parse_job_card`: leftmost occurrence of the literal `/view/`
followed by at least one digit, capturing the maximal digit run. -/
def extractViewId : List Char → Option String
  | [] => none
  | c :: cs =>
    if "/view/".data.isPrefixOf (c :: cs) then
      let ds := ((c :: cs).drop 6).takeWhile Char.isDigit
      if ds.isEmpty then extractViewId cs else some (String.mk ds)
    else extractViewId cs

/-- Character class `[\w-]` of the URL regex in `routers.create_job_from_url`
(`\w` modelled as ASCII alphanumeric or underscore). -/
def isWordOrDash (c : Char) : Bool :=
  c.isAlphanum || c = '_' || c = '-'

/-- Lazy slug of the regex `(?:[\w-]+?-)?(\d+)`: finds the shortest nonempty
run of `[\w-]` characters followed by a `-` after which a digit starts, and
captures the maximal digit run; fails as soon as a character outside the
class is hit. The `first` flag records whether at least one class character
has been consumed (the `+` of `[\w-]+?`). -/
def slugThenDigits (first : Bool) : List Char → Option String
  | [] => none
  | c :: cs =>
    if c = '-' && !first then
      match cs with
      | d :: _ =>
        if d.isDigit then some (String.mk (cs.takeWhile Char.isDigit))
        else slugThenDigits false cs
      | [] => none
    else if isWordOrDash c then slugThenDigits false cs
    else none

/-- Regex `r'/jobs/view/(?:[\w-]+?-)?(\d+)'` applied with `re.search` in
`routers.create_job_from_url`: leftmost occurrence of `/jobs/view/` from
which the rest of the pattern completes. The optional group is greedy, so
the slug branch is attempted before the bare-digits branch. -/
def extractUrlJobId : List Char → Option String
  | [] => none
  | c :: cs =>
    if "/jobs/view/".data.isPrefixOf (c :: cs) then
      let rest := (c :: cs).drop 11
      match slugThenDigits true rest with
      | some ds => some ds
      | none =>
        let ds := rest.takeWhile Char.isDigit
        if ds.isEmpty then extractUrlJobId cs else some (String.mk ds)
    else extractUrlJobId cs

/-- Python `job_id.split(':')[-1]` in `services.parse_job_card`: the suffix
after the last colon (the whole string when it holds no colon). -/
def lastColonField (s : String) : String :=
  String.mk ((s.data.reverse.takeWhile (fun c => c ≠ ':')).reverse)

/-- Python `job_url.split('?')[0]` in `services.parse_job_card`: the URL up
to the first query separator. -/
def stripQuery (s : String) : String :=
  String.mk (s.data.takeWhile (fun c => c ≠ '?'))

/-- Python `value_text.lower().replace(' ', '_').replace('-', '_')` used in
`services.get_job_details` to normalise employment type and seniority. -/
def normalizeToken (s : String) : String :=
  String.mk (s.data.map (fun c =>
    let l := c.toLower
    if l = ' ' ∨ l = '-' then '_' else l))

/-- Regex `r'(\d+)'` with `re.search`: first digit run in a text, as used for
the applicants caption in `services.get_job_details`. -/
def firstInt : List Char → Option Nat
  | [] => none
  | c :: cs =>
    if c.isDigit then some (digitsVal ((c :: cs).takeWhile Char.isDigit))
    else firstInt cs

/-- A search-result card, holding exactly the element texts and attributes
that `services.parse_job_card` reads. A `none` field means the corresponding
element or attribute was not found. -/
structure JobCard where
  dataEntityUrn : Option String
  fullLinkHref : Option String
  titleText : Option String
  subtitleText : Option String
  hiddenLinkText : Option String
  locationText : Option String
  timeDatetime : Option String
  logoDelayedUrl : Option String
  logoSrc : Option String
  snippetText : Option String
  deriving Repr, DecidableEq

/-- The dictionary built by `services.parse_job_card` on success. -/
structure CardData where
  job_id : String
  title : String
  company_name : String
  location : String
  linkedin_url : String
  posted_date : Option Int
  company_logo_url : Option String
  description : Option String
  deriving Repr, DecidableEq

/-- Embeds `services.parse_job_card`. `parseIso` stands for
`datetime.fromisoformat` (with the `Z` suffix replacement), returning `none`
when the library call raises. The function returns `none` exactly when no
job id can be extracted or the title element is missing (malformed cards are
discarded). -/
def parse_job_card (parseIso : String → Option Int) (card : JobCard) : Option CardData :=
  let urn := card.dataEntityUrn.getD ""
  let jid : String :=
    if urn ≠ "" then lastColonField urn
    else
      match card.fullLinkHref with
      | some href => (extractViewId href.data).getD ""
      | none => ""
  if jid = "" then none
  else
    match card.titleText with
    | none => none
    | some title =>
      let company :=
        match card.subtitleText with
        | some c => c
        | none =>
          match card.hiddenLinkText with
          | some c => c
          | none => "Unknown"
      let loc := card.locationText.getD "Unknown"
      let url :=
        match card.fullLinkHref with
        | some href => stripQuery href
        | none => "https://www.linkedin.com/jobs/view/" ++ jid
      let posted :=
        match card.timeDatetime with
        | some dt => parseIso dt
        | none => none
      let logo :=
        match card.logoDelayedUrl with
        | some u => some u
        | none => card.logoSrc
      some ⟨jid, title, company, loc, url, posted, logo, card.snippetText⟩

/-- The `(job_id, linkedin_url)` pair that `services.search_jobs` appends to
its result list (`jobs.append({'job_id': ..., 'linkedin_url': ...})`): the
dictionary has exactly these two keys. -/
structure Stub where
  job_id : String
  linkedin_url : String
  deriving Repr, DecidableEq

/-- Inner card loop of `services.search_jobs`: walks the cards of one result
page, stopping once `limit` stubs are collected, skipping unparseable cards,
and adding a stub only for a nonempty, not-yet-seen job id. Returns the
grown stub list, the grown seen set, and the count of stubs this page
contributed (`jobs_found_on_page`). -/
def processCards (parseIso : String → Option Int) (limit : Nat) :
    List JobCard → List String → List Stub → Nat → List Stub × List String × Nat
  | [], seen, jobs, found => (jobs, seen, found)
  | card :: rest, seen, jobs, found =>
    if limit ≤ jobs.length then (jobs, seen, found)
    else
      match parse_job_card parseIso card with
      | none => processCards parseIso limit rest seen jobs found
      | some cd =>
        if cd.job_id ≠ "" ∧ cd.job_id ∉ seen then
          processCards parseIso limit rest (cd.job_id :: seen)
            (jobs ++ [⟨cd.job_id, cd.linkedin_url⟩]) (found + 1)
        else processCards parseIso limit rest seen jobs found

/-- Ghost record of one iteration of the page loop in
`services.search_jobs`, kept for specification purposes only: the offset
requested, how many cards the page had, how many new stubs it contributed,
and the stub-list length after processing it. -/
structure PageVisit where
  offset : Nat
  cardCount : Nat
  newCount : Nat
  lenAfter : Nat
  deriving Repr, DecidableEq

/-- Page loop of `services.search_jobs`, instrumented with a `PageVisit`
trace. `fetchPage` stands for the `session.get` + card extraction of one
result page at a given offset: `.error` is a raised transport failure
(`requests.RequestException` or `raise_for_status`), `.ok` the parsed list
of card elements. The loop mirrors the source: stop when the limit is
reached, propagate fetch errors, stop on a page with no cards, otherwise
process the cards and either stop (no new stubs, or limit reached) or
advance the offset by 25. -/
def searchGo (fetchPage : Nat → Except String (List JobCard))
    (parseIso : String → Option Int) (limit : Nat) :
    Nat → List String → List Stub → Except String (List Stub × List PageVisit)
  | start, seen, jobs =>
    if limit ≤ jobs.length then .ok (jobs.take limit, [])
    else
      match fetchPage start with
      | .error e => .error e
      | .ok cards =>
        if cards.isEmpty then .ok (jobs.take limit, [⟨start, 0, 0, jobs.length⟩])
        else
          match hr : processCards parseIso limit cards seen jobs 0 with
          | (jobs2, seen2, found2) =>
            let v : PageVisit := ⟨start, cards.length, found2, jobs2.length⟩
            if h : found2 = 0 ∨ limit ≤ jobs2.length then .ok (jobs2.take limit, [v])
            else
              match searchGo fetchPage parseIso limit (start + 25) seen2 jobs2 with
              | .error e => .error e
              | .ok (res, vs) => .ok (res, v :: vs)
  termination_by start seen jobs => limit - jobs.length
  decreasing_by
    have key : ∀ (cards : List JobCard) (seen : List String) (jobs : List Stub) (found : Nat),
        (processCards parseIso limit cards seen jobs found).1.length + found =
          jobs.length + (processCards parseIso limit cards seen jobs found).2.2 := by
      intro cards
      induction cards with
      | nil => intro seen jobs found; simp [processCards]
      | cons card rest ih =>
        intro seen jobs found
        rw [processCards]
        split
        · simp
        · cases hp : parse_job_card parseIso card with
          | none => simpa using ih seen jobs found
          | some cd =>
            simp only
            split
            · have h2 := ih (cd.job_id :: seen)
                (jobs ++ [⟨cd.job_id, cd.linkedin_url⟩]) (found + 1)
              simp only [List.length_append, List.length_singleton] at h2 ⊢
              omega
            · simpa using ih seen jobs found
    have hlen := key cards seen jobs 0
    rw [hr] at hlen
    simp only [not_or, not_le] at h
    simp only at hlen
    omega

/-- Embeds `services.search_jobs` together with its ghost page trace. -/
def search_jobsTraced (fetchPage : Nat → Except String (List JobCard))
    (parseIso : String → Option Int) (limit : Nat) :
    Except String (List Stub × List PageVisit) :=
  searchGo fetchPage parseIso limit 0 [] []

/-- Embeds `services.search_jobs`: the stub list it returns (the trace
projected away). -/
def search_jobs (fetchPage : Nat → Except String (List JobCard))
    (parseIso : String → Option Int) (limit : Nat) : Except String (List Stub) :=
  (search_jobsTraced fetchPage parseIso limit).map Prod.fst

/-- URL-bearing attributes of the company-logo element found by the selector
cascade of `services.get_job_details`. -/
structure LogoAttrs where
  src : Option String
  dataDelayedUrl : Option String
  dataSrc : Option String
  dataOriginalUrl : Option String
  deriving Repr, DecidableEq

/-- A job detail page, holding exactly the element texts and attributes that
`services.get_job_details` reads. `titleText`, `companyText` and
`locationText` are the outcomes of their two-selector fallbacks; `logo` is
the element found by the four-step logo selector cascade (`none` when every
selector fails); `relTexts` are the stripped texts of all `span`, `div`,
`p` and `time` elements in document order; `criteria` pairs the header and
value texts of each `description__job-criteria-item` (either may be
missing). -/
structure DetailPage where
  titleText : Option String
  companyText : Option String
  locationText : Option String
  timeDatetime : Option String
  relTexts : List String
  descriptionText : Option String
  criteria : List (Option String × Option String)
  applicantsText : Option String
  logo : Option LogoAttrs
  deriving Repr, DecidableEq

/-- Layered posted-date fallback of `services.get_job_details`: the
structured `datetime` attribute is parsed first; when it is absent or
unparseable, the first element text matching the relative-date pattern
yields `now` minus the implied duration; otherwise the date is `none`. -/
def extractPostedDate (parseIso : String → Option Int) (now : Int)
    (page : DetailPage) : Option Int :=
  match page.timeDatetime.bind parseIso with
  | some d => some d
  | none =>
    match firstRelMatch page.relTexts with
    | some (v, u) => relDelta now v u
    | none => none

/-- One step of the criteria loop of `services.get_job_details`: an item
whose header mentions employment updates the employment type, one whose
header mentions seniority updates the experience level, each normalised;
items missing header or value are skipped. The accumulator is the pair
(employment_type, experience_level). -/
def applyCriteria (acc : Option String × Option String)
    (item : Option String × Option String) : Option String × Option String :=
  match item with
  | (some ht, some vt) =>
    if containsSeq "Employment type".data ht.data ||
        containsSeq "Job type".data ht.data then
      (some (normalizeToken vt), acc.2)
    else if containsSeq "Seniority level".data ht.data ||
        containsSeq "Experience".data ht.data then
      (acc.1, some (normalizeToken vt))
    else acc
  | _ => acc

/-- The dictionary returned by `services.get_job_details` on success:
`job_id` and `linkedin_url` are always present, every other key is set only
when its extraction succeeded. -/
structure JobDetails where
  job_id : String
  linkedin_url : String
  title : Option String
  company_name : Option String
  location : Option String
  posted_date : Option Int
  description : Option String
  employment_type : Option String
  experience_level : Option String
  applicants_count : Option Nat
  company_logo_url : Option String
  deriving Repr, DecidableEq

/-- First URL-bearing attribute of the logo element, in the priority order
of the source (`src`, then `data-delayed-url`, `data-src`,
`data-original-url`). -/
def logoUrl (l : LogoAttrs) : Option String :=
  match l.src with
  | some u => some u
  | none =>
    match l.dataDelayedUrl with
    | some u => some u
    | none =>
      match l.dataSrc with
      | some u => some u
      | none => l.dataOriginalUrl

/-- Embeds `services.get_job_details`. `fetch` stands for the
`session.get` + `raise_for_status` + HTML parse of the detail page for a
job id: `.error` is a raised exception, which the source catches and turns
into `None`; on `.ok` the page is parsed field by field and a (possibly
partial) details dictionary is always returned. -/
def get_job_details (fetch : String → Except String DetailPage)
    (parseIso : String → Option Int) (now : Int) (job_id : String) :
    Option JobDetails :=
  match fetch job_id with
  | .error _ => none
  | .ok page =>
    let ee := page.criteria.foldl applyCriteria (none, none)
    some
      { job_id := job_id
        linkedin_url := "https://www.linkedin.com/jobs/view/" ++ job_id
        title := page.titleText
        company_name := page.companyText
        location := page.locationText
        posted_date := extractPostedDate parseIso now page
        description := page.descriptionText
        employment_type := ee.1
        experience_level := ee.2
        applicants_count := page.applicantsText.bind (fun t => firstInt t.data)
        company_logo_url := page.logo.bind logoUrl }

/-- The persisted `JobListing` row of `models.py` (scraping-relevant
columns; `created_at` is modelled by the position in the store list, which
is kept in creation order). The model has no enrichment flag column. -/
structure JobListing where
  job_id : String
  linkedin_url : String
  title : String
  company_name : String
  location : String
  description : Option String
  employment_type : Option String
  experience_level : Option String
  posted_date : Option Int
  applicants_count : Option Nat
  company_logo_url : Option String
  deriving Repr, DecidableEq

/-- The listing store: `JobListing` rows in creation order. -/
abbrev Store := List JobListing

/-- Per-profile share of the total limit computed by `routers.search_jobs`:
`per_profile_base + (1 if idx < remainder else 0)` with
`per_profile_base = total_limit // len(profiles)` and
`remainder = total_limit % len(profiles)`. -/
def perProfileLimit (totalLimit n idx : Nat) : Nat :=
  totalLimit / n + (if idx < totalLimit % n then 1 else 0)

/-- One stub insertion into the `jobs_by_id` dict of `routers.search_jobs`
(modelled as an insertion-ordered association list): an empty id or an id
already present is skipped, otherwise the pair is appended. -/
def insStub (m : List (String × String)) (s : Stub) : List (String × String) :=
  if s.job_id = "" ∨ (m.lookup s.job_id).isSome then m
  else m ++ [(s.job_id, s.linkedin_url)]

/-- Ghost record of one search actually issued by the profile loop of
`routers.search_jobs`: the profile index, the share passed as its limit and
the size of `jobs_by_id` before its results were folded in. -/
structure SearchCall where
  idx : Nat
  share : Nat
  sizeBefore : Nat
  deriving Repr, DecidableEq

/-- Profile loop of `routers.search_jobs` (step 1), instrumented with a
`SearchCall` trace. `searchFn idx share` stands for
`scraper.search_jobs(...)` for profile `idx` with per-profile limit
`share`; a raised exception is `.error` and aborts the endpoint. Profiles
with a zero share are skipped (`continue`); after folding a profile's
stubs into `jobs_by_id` the loop breaks early once the unique count has
reached `totalLimit`. -/
def collectGo (searchFn : Nat → Nat → Except String (List Stub))
    (totalLimit n : Nat) :
    List Nat → List (String × String) →
      Except String (List (String × String) × List SearchCall)
  | [], m => .ok (m, [])
  | idx :: rest, m =>
    let share := perProfileLimit totalLimit n idx
    if share = 0 then collectGo searchFn totalLimit n rest m
    else
      match searchFn idx share with
      | .error e => .error e
      | .ok stubs =>
        let m' := stubs.foldl insStub m
        if totalLimit ≤ m'.length then .ok (m', [⟨idx, share, m.length⟩])
        else
          match collectGo searchFn totalLimit n rest m' with
          | .error e => .error e
          | .ok (mf, calls) => .ok (mf, ⟨idx, share, m.length⟩ :: calls)

/-- Step 1 of `routers.search_jobs` over profiles `0, ..., n-1`. -/
def collectJobs (searchFn : Nat → Nat → Except String (List Stub))
    (totalLimit n : Nat) :
    Except String (List (String × String) × List SearchCall) :=
  collectGo searchFn totalLimit n (List.range n) []

/-- Row created by `JobListing.objects.create(...)` in
`routers.search_jobs` step 4 and in `routers.create_job_from_url`: required
text columns fall back to `'Unknown'` when the details dictionary lacks
them, optional columns are stored as given. -/
def mkListing (jid : String) (jd : JobDetails) : JobListing :=
  { job_id := jid
    linkedin_url := jd.linkedin_url
    title := jd.title.getD "Unknown"
    company_name := jd.company_name.getD "Unknown"
    location := jd.location.getD "Unknown"
    description := jd.description
    employment_type := jd.employment_type
    experience_level := jd.experience_level
    posted_date := jd.posted_date
    applicants_count := jd.applicants_count
    company_logo_url := jd.company_logo_url }

/-- Enrichment loop of `routers.search_jobs` (step 4): for each job id in
order, a missing details dictionary or a falsy title counts as failed and
writes nothing; otherwise a new row is created immediately. Returns the
grown store and the `(enriched, failed)` counters. -/
def enrichGo (details : String → Option JobDetails) :
    List String → Store → Nat → Nat → Store × Nat × Nat
  | [], store, e, f => (store, e, f)
  | jid :: rest, store, e, f =>
    match details jid with
    | none => enrichGo details rest store e (f + 1)
    | some jd =>
      if jd.title.getD "" = "" then enrichGo details rest store e (f + 1)
      else enrichGo details rest (store ++ [mkListing jid jd]) (e + 1) f

/-- Result of one orchestration run of `routers.search_jobs`: the store
after the run, the listings returned (most recent first), the deduplicated
id list, and the summary counters. -/
structure RunResult where
  store : Store
  jobs : List JobListing
  uniqueIds : List String
  existingCount : Nat
  enrichedCount : Nat
  failedCount : Nat
  deriving Repr, DecidableEq

/-- Embeds the core of the `routers.search_jobs` endpoint (steps 1-5): the
profile search loop, the truncation `list(jobs_by_id.keys())[:total_limit]`,
the batched existence check, the enrichment loop and the final store query
ordered by `-created_at` (newest first, hence the reversal of the
creation-ordered store). `n` is the number of the user's search profiles. -/
def searchAndEnrich (store0 : Store) (n totalLimit : Nat)
    (searchFn : Nat → Nat → Except String (List Stub))
    (details : String → Option JobDetails) : Except String RunResult :=
  match collectJobs searchFn totalLimit n with
  | .error e => .error e
  | .ok (m, _calls) =>
    let uniqueIds := (m.map Prod.fst).take totalLimit
    if uniqueIds.isEmpty then .ok ⟨store0, [], [], 0, 0, 0⟩
    else
      let storeIds := store0.map JobListing.job_id
      let existingIds := uniqueIds.filter (fun jid => jid ∈ storeIds)
      let toEnrich := uniqueIds.filter (fun jid => jid ∉ storeIds)
      match he : enrichGo details toEnrich store0 0 0 with
      | (store1, e, f) =>
        .ok ⟨store1, (store1.filter (fun r => r.job_id ∈ uniqueIds)).reverse,
          uniqueIds, existingIds.length, e, f⟩

/-- Python `str.strip()` (whitespace removed from both ends), as applied to
the incoming URL in `routers.create_job_from_url`. -/
def pyStrip (s : String) : String :=
  String.mk (((s.data.dropWhile Char.isWhitespace).reverse.dropWhile
    Char.isWhitespace).reverse)

/-- Outcome of the `routers.create_job_from_url` endpoint. -/
inductive CreateOutcome where
  | success (j : JobListing)
  | invalidUrl
  | fetchFailed
  | incompleteData
  deriving Repr, DecidableEq

/-- Embeds `routers.create_job_from_url`: strip the URL, extract the job id
with the URL regex (400 on failure), return the stored row unchanged if the
id already exists, otherwise fetch the details (`details` stands for
`scraper.get_job_details`), reject a missing details dictionary or a falsy
title with a 500, and otherwise create and return the new row. Returns the
outcome together with the store after the call. -/
def create_job_from_url (store : Store) (details : String → Option JobDetails)
    (url : String) : CreateOutcome × Store :=
  match extractUrlJobId (pyStrip url).data with
  | none => (.invalidUrl, store)
  | some jid =>
    match store.find? (fun r => r.job_id = jid) with
    | some existing => (.success existing, store)
    | none =>
      match details jid with
      | none => (.fetchFailed, store)
      | some jd =>
        if jd.title.getD "" = "" then (.incompleteData, store)
        else (.success (mkListing jid jd), store ++ [mkListing jid jd])

/-- Sample stored listing used for concrete instantiations. -/
def sampleListing : JobListing :=
  { job_id := "123"
    linkedin_url := "https://www.linkedin.com/jobs/view/123"
    title := "Data Scientist"
    company_name := "ACME"
    location := "Vienna"
    description := some "desc"
    employment_type := some "full_time"
    experience_level := some "mid_senior_level"
    posted_date := none
    applicants_count := none
    company_logo_url := none }

/-- Sample detail page lacking a title element. -/
def noTitlePage : DetailPage :=
  { titleText := none, companyText := none, locationText := none
    timeDatetime := none, relTexts := [], descriptionText := none
    criteria := [], applicantsText := none, logo := none }

/-- Sample detail page whose only date information is the visible text
`3 days ago`. -/
def relDatePage : DetailPage :=
  { titleText := some "Data Scientist", companyText := none, locationText := none
    timeDatetime := none, relTexts := ["Posted", "3 days ago"]
    descriptionText := none, criteria := [], applicantsText := none, logo := none }

/-- Sample search-result card identified by its entity URN. -/
def sampleCard : JobCard :=
  { dataEntityUrn := some "urn:li:jobPosting:111", fullLinkHref := none
    titleText := some "Engineer", subtitleText := none, hiddenLinkText := none
    locationText := none, timeDatetime := none, logoDelayedUrl := none
    logoSrc := none, snippetText := none }

/-- Sample page fetcher serving one card at offset zero and nothing after. -/
def sampleFetchPage (start : Nat) : Except String (List JobCard) :=
  if start = 0 then .ok [sampleCard] else .ok []

/-- Sample fully populated detail page. -/
def fullPage : DetailPage :=
  { titleText := some "Engineer", companyText := some "ACME"
    locationText := some "Vienna", timeDatetime := none, relTexts := []
    descriptionText := some "desc"
    criteria := [(some "Employment type", some "Full-time")]
    applicantsText := some "25 applicants", logo := none }

theorem sum_base_indicator (q r : Nat) :
    ∀ m : Nat,
      ((List.range m).map (fun i => q + if i < r then 1 else 0)).sum = m * q + min m r := by
  intro m
  induction m with
  | zero => simp
  | succ m ih =>
    rw [List.range_succ, List.map_append, List.sum_append, ih]
    simp only [List.map_cons, List.map_nil, List.sum_cons, List.sum_nil]
    by_cases hm : m < r
    · rw [if_pos hm, Nat.min_eq_left (Nat.le_of_lt hm), Nat.min_eq_left hm]
      ring_nf
      omega
    · rw [if_neg hm, Nat.min_eq_right (by omega), Nat.min_eq_right (by omega)]
      ring_nf

/-- C3: the orchestrator splits `totalLimit` over `n` profiles as
`floor(L/n)` plus one extra for each of the first `L mod n` profiles, so
the shares sum exactly to `L`, any two shares differ by at most one, and
`L = 10` with `n = 3` yields the shares `[4, 3, 3]`. -/
theorem even_distribution (L n : Nat) (hn : 0 < n) :
    ((List.range n).map (perProfileLimit L n)).sum = L ∧
    (∀ i j, perProfileLimit L n i ≤ perProfileLimit L n j + 1) ∧
    (List.range 3).map (perProfileLimit 10 3) = [4, 3, 3] := by
  refine ⟨?_, ?_, by decide⟩
  · rw [show (List.range n).map (perProfileLimit L n) =
        (List.range n).map (fun i => L / n + if i < L % n then 1 else 0) from rfl]
    rw [sum_base_indicator]
    have h1 := Nat.mod_lt L hn
    have h2 := Nat.div_add_mod L n
    omega
  · intro i j
    unfold perProfileLimit
    split <;> split <;> omega

theorem even_distribution_witness :
    0 < 3 ∧ ((List.range 3).map (perProfileLimit 10 3)).sum = 10 :=
  ⟨by decide, (even_distribution 10 3 (by decide)).1⟩

/-- C9: `create_job_from_url` is idempotent on the store: when a listing
with the id extracted from the URL already exists, the call returns that
stored record, leaves the store unchanged and never consults the detail
fetcher (the outcome is independent of the details oracle); consequently a
second call with the same URL leaves the store exactly as one call does. -/
theorem create_from_url_idempotent
    (store : Store) (d1 d2 : String → Option JobDetails) (url jid : String)
    (R : JobListing)
    (hid : extractUrlJobId (pyStrip url).data = some jid)
    (hR : store.find? (fun r => r.job_id = jid) = some R) :
    create_job_from_url store d1 url = (.success R, store) ∧
    create_job_from_url store d1 url = create_job_from_url store d2 url ∧
    ∀ (s : Store) (d : String → Option JobDetails) (u : String),
      (create_job_from_url (create_job_from_url s d u).2 d u).2 =
        (create_job_from_url s d u).2 := by
  refine ⟨?_, ?_, ?_⟩
  · simp [create_job_from_url, hid, hR]
  · simp [create_job_from_url, hid, hR]
  · intro s d u
    cases hu : extractUrlJobId (pyStrip u).data with
    | none => simp [create_job_from_url, hu]
    | some j =>
      cases hf : s.find? (fun r => r.job_id = j) with
      | some ex => simp [create_job_from_url, hu, hf]
      | none =>
        cases hd : d j with
        | none => simp [create_job_from_url, hu, hf, hd]
        | some jd =>
          by_cases ht : jd.title.getD "" = ""
          · simp [create_job_from_url, hu, hf, hd, ht]
          · have hinner :
                create_job_from_url s d u =
                  (.success (mkListing j jd), s ++ [mkListing j jd]) := by
              simp [create_job_from_url, hu, hf, hd, ht]
            have hfind : (s ++ [mkListing j jd]).find?
                (fun r => r.job_id = j) = some (mkListing j jd) := by
              rw [List.find?_append, hf]
              simp [mkListing]
            rw [hinner]
            simp [create_job_from_url, hu, hfind]

theorem create_from_url_idempotent_witness :
    extractUrlJobId (pyStrip "https://www.linkedin.com/jobs/view/123").data = some "123" ∧
    create_job_from_url [sampleListing] (fun _ => none)
      "https://www.linkedin.com/jobs/view/123" = (.success sampleListing, [sampleListing]) :=
  ⟨by decide,
   (create_from_url_idempotent [sampleListing] (fun _ => none) (fun _ => none)
      "https://www.linkedin.com/jobs/view/123" "123" sampleListing
      (by decide) (by decide)).1⟩

/-- C4 counterexample: a detail page that cannot be parsed into even a
title does not make `get_job_details` return absent — the function still
returns a (partial) details record. -/
theorem detail_missing_title_counterexample :
    noTitlePage.titleText = none ∧
    get_job_details (fun _ => .ok noTitlePage) (fun _ => none) 0 "123" ≠ none := by
  refine ⟨rfl, ?_⟩
  intro hcontra
  simp [get_job_details] at hcontra

/-- C4 (amended): when the fetched detail page lacks a parseable title,
`get_job_details` returns a partial record whose `title` is absent (the
function returns `none` only when the fetch raises), and the orchestrator's
enrichment loop counts such a job as failed and performs no store write. -/
theorem detail_missing_title_failed (fetch : String → Except String DetailPage)
    (parseIso : String → Option Int) (now : Int) (jid : String)
    (page : DetailPage) (hf : fetch jid = .ok page)
    (ht : page.titleText = none) :
    (∃ jd, get_job_details fetch parseIso now jid = some jd ∧ jd.title = none) ∧
    ∀ (store : Store) (e f : Nat),
      enrichGo (get_job_details fetch parseIso now) [jid] store e f =
        (store, e, f + 1) := by
  have hjd : ∃ jd, get_job_details fetch parseIso now jid = some jd ∧
      jd.title = none := by
    unfold get_job_details
    rw [hf]
    exact ⟨_, rfl, ht⟩
  refine ⟨hjd, ?_⟩
  obtain ⟨jd, h1, h2⟩ := hjd
  intro store e f
  simp [enrichGo, h1, h2]

theorem detail_missing_title_failed_witness :
    (∃ jd, get_job_details (fun _ => .ok noTitlePage) (fun _ => none) 0 "123" =
        some jd ∧ jd.title = none) ∧
    enrichGo (get_job_details (fun _ => .ok noTitlePage) (fun _ => none) 0)
      ["123"] [] 0 0 = ([], 0, 0 + 1) :=
  ⟨(detail_missing_title_failed (fun _ => .ok noTitlePage) (fun _ => none) 0 "123"
      noTitlePage rfl rfl).1,
   (detail_missing_title_failed (fun _ => .ok noTitlePage) (fun _ => none) 0 "123"
      noTitlePage rfl rfl).2 [] 0 0⟩

theorem firstRelMatch_none :
    ∀ ts : List String, (∀ t ∈ ts, matchRelDate t.data = none) →
      firstRelMatch ts = none
  | [], _ => rfl
  | t :: ts, h => by
    rw [firstRelMatch, h t (by simp)]
    exact firstRelMatch_none ts (fun t2 ht2 => h t2 (by simp [ht2]))

theorem firstRelMatch_append (pre : List String) (mid : String)
    (ts2 : List String) (r : Nat × String)
    (hpre : ∀ t ∈ pre, matchRelDate t.data = none)
    (hmid : matchRelDate mid.data = some r) :
    firstRelMatch (pre ++ mid :: ts2) = some r := by
  induction pre with
  | nil => rw [List.nil_append, firstRelMatch, hmid]
  | cons t pre ih =>
    rw [List.cons_append, firstRelMatch, hpre t (by simp)]
    exact ih (fun t2 ht2 => hpre t2 (by simp [ht2]))

theorem takeDigits_append (ds : List Char) (c0 : Char) (tail : List Char)
    (hdig : ∀ c ∈ ds, c.isDigit = true) (hc0 : c0.isDigit = false) :
    takeDigits (ds ++ c0 :: tail) = (ds, c0 :: tail) := by
  unfold takeDigits
  induction ds with
  | nil => simp [List.takeWhile_cons, List.dropWhile_cons, hc0]
  | cons d ds ih =>
    have hd := hdig d (by simp)
    have ih2 := ih (fun c hc => hdig c (by simp [hc]))
    simp only [List.cons_append, List.takeWhile_cons, List.dropWhile_cons, hd] at ih2 ⊢
    simp only [Prod.mk.injEq] at ih2 ⊢
    simp [ih2.1, ih2.2]

theorem matchRelAt_space (ds tail : List Char) (hne : ds ≠ [])
    (hdig : ∀ c ∈ ds, c.isDigit = true) :
    matchRelAt (ds ++ ' ' :: tail) =
      match matchUnitAgo (tail.dropWhile Char.isWhitespace) with
      | none => none
      | some u => some (digitsVal ds, u) := by
  unfold matchRelAt
  rw [takeDigits_append ds ' ' tail hdig (by decide)]
  have hemp : ds.isEmpty = false := by
    cases ds
    · exact absurd rfl hne
    · rfl
  have hts : takeSpaces (' ' :: tail) = some (tail.dropWhile Char.isWhitespace) := rfl
  simp only [hemp, hts, Bool.false_eq_true, if_false]

theorem matchRelDate_space (d : Char) (ds tail : List Char) (u : String)
    (hdig : ∀ c ∈ d :: ds, c.isDigit = true)
    (hu : matchUnitAgo (tail.dropWhile Char.isWhitespace) = some u) :
    matchRelDate ((d :: ds) ++ ' ' :: tail) = some (digitsVal (d :: ds), u) := by
  have hd : d.isDigit = true := hdig d (by simp)
  have hrel := matchRelAt_space (d :: ds) tail (by simp) hdig
  rw [hu] at hrel
  rw [List.cons_append, matchRelDate, ← List.cons_append, hrel]
  simp [hd]

/-- C6: posted-date extraction in the detail fetch uses a layered fallback:
the structured timestamp attribute wins when present and parseable;
otherwise the first element text matching the relative-date pattern yields
`now` minus the implied duration (a day is 86400 s, an hour 3600 s, a week
604800 s and a month counts as 30 days); when neither form is found the
posted date is absent, never fabricated as `now`. -/
theorem posted_date_fallback (parseIso : String → Option Int) (now : Int)
    (page : DetailPage) :
    (∀ s t, page.timeDatetime = some s → parseIso s = some t →
      extractPostedDate parseIso now page = some t) ∧
    (page.timeDatetime.bind parseIso = none →
      ∀ (pre ts2 : List String) (d : Char) (ds : List Char) (u : String),
        page.relTexts =
          pre ++ String.mk ((d :: ds) ++ ' ' :: (u.data ++ " ago".data)) :: ts2 →
        (∀ t ∈ pre, matchRelDate t.data = none) →
        (∀ c ∈ d :: ds, c.isDigit = true) →
        u ∈ (["day", "days", "hour", "hours", "week", "weeks", "month",
          "months"] : List String) →
        extractPostedDate parseIso now page =
          relDelta now (digitsVal (d :: ds)) u) ∧
    (∀ v : Nat,
      relDelta now v "day" = some (now - v * 86400) ∧
      relDelta now v "days" = some (now - v * 86400) ∧
      relDelta now v "hour" = some (now - v * 3600) ∧
      relDelta now v "hours" = some (now - v * 3600) ∧
      relDelta now v "week" = some (now - v * 604800) ∧
      relDelta now v "weeks" = some (now - v * 604800) ∧
      relDelta now v "month" = some (now - v * 30 * 86400) ∧
      relDelta now v "months" = some (now - v * 30 * 86400)) ∧
    (page.timeDatetime.bind parseIso = none →
      (∀ t ∈ page.relTexts, matchRelDate t.data = none) →
      extractPostedDate parseIso now page = none) := by
  refine ⟨?_, ?_, ?_, ?_⟩
  · intro s t hs ht
    unfold extractPostedDate
    rw [hs, show (Option.some s).bind parseIso = parseIso s from rfl, ht]
  · intro hbind pre ts2 d ds u hrel hpre hdig hu
    have hws : (u.data ++ " ago".data).dropWhile Char.isWhitespace =
        u.data ++ " ago".data := by
      fin_cases hu <;> rfl
    have hunit : matchUnitAgo ((u.data ++ " ago".data).dropWhile
        Char.isWhitespace) = some u := by
      rw [hws]; fin_cases hu <;> rfl
    have hmid : matchRelDate
        (String.mk ((d :: ds) ++ ' ' :: (u.data ++ " ago".data))).data =
        some (digitsVal (d :: ds), u) :=
      matchRelDate_space d ds (u.data ++ " ago".data) u hdig hunit
    unfold extractPostedDate
    rw [hbind, hrel, firstRelMatch_append pre _ ts2 _ hpre hmid]
  · intro v
    have h1 : containsSeq "day".data "day".data = true := by decide
    have h2 : containsSeq "day".data "days".data = true := by decide
    have h3 : containsSeq "day".data "hour".data = false := by decide
    have h4 : containsSeq "hour".data "hour".data = true := by decide
    have h5 : containsSeq "day".data "hours".data = false := by decide
    have h6 : containsSeq "hour".data "hours".data = true := by decide
    have h7 : containsSeq "day".data "week".data = false := by decide
    have h8 : containsSeq "hour".data "week".data = false := by decide
    have h9 : containsSeq "week".data "week".data = true := by decide
    have h10 : containsSeq "day".data "weeks".data = false := by decide
    have h11 : containsSeq "hour".data "weeks".data = false := by decide
    have h12 : containsSeq "week".data "weeks".data = true := by decide
    have h13 : containsSeq "day".data "month".data = false := by decide
    have h14 : containsSeq "hour".data "month".data = false := by decide
    have h15 : containsSeq "week".data "month".data = false := by decide
    have h16 : containsSeq "month".data "month".data = true := by decide
    have h17 : containsSeq "day".data "months".data = false := by decide
    have h18 : containsSeq "hour".data "months".data = false := by decide
    have h19 : containsSeq "week".data "months".data = false := by decide
    have h20 : containsSeq "month".data "months".data = true := by decide
    refine ⟨?_, ?_, ?_, ?_, ?_, ?_, ?_, ?_⟩ <;>
      simp [relDelta, h1, h2, h3, h4, h5, h6, h7, h8, h9, h10, h11, h12, h13,
        h14, h15, h16, h17, h18, h19, h20]
  · intro hbind hnone
    unfold extractPostedDate
    rw [hbind, firstRelMatch_none page.relTexts hnone]

theorem posted_date_fallback_witness :
    extractPostedDate (fun _ => none) 1000000 relDatePage =
      some (740800 : Int) := by
  have h := ((posted_date_fallback (fun _ => none) 1000000 relDatePage).2.1
    (by rfl) ["Posted"] [] '3' [] "days" (by decide) (by decide) (by decide)
    (by decide))
  have h2 := ((posted_date_fallback (fun _ => none) 1000000 relDatePage).2.2.1
    (digitsVal ['3'])).2.1
  have hdv : digitsVal ['3'] = 3 := by decide
  rw [h, h2, hdv]
  norm_num

theorem processCards_stopped (parseIso : String → Option Int) (limit : Nat)
    (cards : List JobCard) (seen : List String) (jobs : List Stub) (found : Nat)
    (h : limit ≤ jobs.length) :
    processCards parseIso limit cards seen jobs found = (jobs, seen, found) := by
  cases cards with
  | nil => rfl
  | cons card rest => rw [processCards, if_pos h]

theorem processCards_length (parseIso : String → Option Int) (limit : Nat) :
    ∀ (cards : List JobCard) (seen : List String) (jobs : List Stub) (found : Nat),
      (processCards parseIso limit cards seen jobs found).1.length + found =
        jobs.length + (processCards parseIso limit cards seen jobs found).2.2
  | [], _, _, _ => by simp [processCards]
  | card :: rest, seen, jobs, found => by
    rw [processCards]
    split
    · simp
    · cases hp : parse_job_card parseIso card with
      | none => simpa using processCards_length parseIso limit rest seen jobs found
      | some cd =>
        simp only
        split
        · have h2 := processCards_length parseIso limit rest (cd.job_id :: seen)
            (jobs ++ [⟨cd.job_id, cd.linkedin_url⟩]) (found + 1)
          simp only [List.length_append, List.length_singleton] at h2 ⊢
          omega
        · simpa using processCards_length parseIso limit rest seen jobs found

theorem processCards_mem (parseIso : String → Option Int) (limit : Nat) :
    ∀ (cards : List JobCard) (seen : List String) (jobs : List Stub)
      (found : Nat) (s : Stub),
      s ∈ (processCards parseIso limit cards seen jobs found).1 →
      s ∈ jobs ∨ s.job_id ≠ ""
  | [], seen, jobs, found, s => by
    intro hs
    simp only [processCards] at hs
    exact Or.inl hs
  | card :: rest, seen, jobs, found, s => by
    intro hs
    rw [processCards] at hs
    split at hs
    · exact Or.inl hs
    · split at hs
      · exact processCards_mem parseIso limit rest seen jobs found s hs
      · rename_i cd hp
        split at hs
        · rename_i hcond
          rcases processCards_mem parseIso limit rest _ _ _ s hs with h | h
          · rcases List.mem_append.mp h with h2 | h2
            · exact Or.inl h2
            · right
              have hse : s = ⟨cd.job_id, cd.linkedin_url⟩ := by simpa using h2
              rw [hse]
              exact hcond.1
          · exact Or.inr h
        · exact processCards_mem parseIso limit rest seen jobs found s hs

theorem searchGo_ok_spec (fetchPage : Nat → Except String (List JobCard))
    (parseIso : String → Option Int) (limit : Nat) :
    ∀ (fuel start : Nat) (seen : List String) (jobs r : List Stub)
      (t : List PageVisit),
      limit - jobs.length ≤ fuel →
      searchGo fetchPage parseIso limit start seen jobs = .ok (r, t) →
      r.length ≤ limit ∧
      (∀ i (hi : i < t.length), (t.get ⟨i, hi⟩).offset = start + 25 * i) ∧
      (∀ i (hi : i < t.length), i + 1 < t.length →
        (t.get ⟨i, hi⟩).newCount ≠ 0 ∧ (t.get ⟨i, hi⟩).cardCount ≠ 0 ∧
          (t.get ⟨i, hi⟩).lenAfter < limit) ∧
      (∀ hne : t ≠ [], (t.getLast hne).cardCount = 0 ∨
        (t.getLast hne).newCount = 0 ∨ limit ≤ (t.getLast hne).lenAfter) ∧
      (t = [] → limit ≤ jobs.length) ∧
      (∀ s ∈ r, s ∈ jobs ∨ s.job_id ≠ "") := by
  intro fuel
  induction fuel with
  | zero =>
    intro start seen jobs r t hfuel h
    have hle : limit ≤ jobs.length := by omega
    rw [searchGo, if_pos hle] at h
    simp only [Except.ok.injEq, Prod.mk.injEq] at h
    obtain ⟨rfl, rfl⟩ := h
    refine ⟨?_, ?_, ?_, ?_, fun _ => hle, ?_⟩
    · simp [List.length_take]
    · intro i hi
      simp at hi
    · intro i hi
      simp at hi
    · intro hne
      exact absurd rfl hne
    · intro s hs
      exact Or.inl (List.take_subset _ _ hs)
  | succ fuel ih =>
    intro start seen jobs r t hfuel h
    rw [searchGo] at h
    by_cases hle : limit ≤ jobs.length
    · rw [if_pos hle] at h
      simp only [Except.ok.injEq, Prod.mk.injEq] at h
      obtain ⟨rfl, rfl⟩ := h
      refine ⟨?_, ?_, ?_, ?_, fun _ => hle, ?_⟩
      · simp [List.length_take]
      · intro i hi
        simp at hi
      · intro i hi
        simp at hi
      · intro hne
        exact absurd rfl hne
      · intro s hs
        exact Or.inl (List.take_subset _ _ hs)
    · rw [if_neg hle] at h
      split at h
      · exact absurd h (by simp)
      · rename_i cards hfetch
        split at h
        · rename_i hemp
          simp only [Except.ok.injEq, Prod.mk.injEq] at h
          obtain ⟨rfl, rfl⟩ := h
          refine ⟨?_, ?_, ?_, ?_, ?_, ?_⟩
          · simp [List.length_take]
          · intro i hi
            match i with
            | 0 => simp
            | Nat.succ j => simp at hi
          · intro i hi hi1
            simp only [List.length_singleton] at hi1
            omega
          · intro hne
            left
            rfl
          · intro habs
            exact absurd habs (by simp)
          · intro s hs
            exact Or.inl (List.take_subset _ _ hs)
        · rename_i hemp
          split at h
          · rename_i jobs2 seen2 found2 hproc
            split at h
            · rename_i hstop
              simp only [Except.ok.injEq, Prod.mk.injEq] at h
              obtain ⟨rfl, rfl⟩ := h
              have hmem : ∀ s ∈ jobs2, s ∈ jobs ∨ s.job_id ≠ "" := by
                intro s hs
                have hm := processCards_mem parseIso limit cards seen jobs 0 s
                rw [hproc] at hm
                exact hm hs
              refine ⟨?_, ?_, ?_, ?_, ?_, ?_⟩
              · simp [List.length_take]
              · intro i hi
                match i with
                | 0 => simp
                | Nat.succ j => simp at hi
              · intro i hi hi1
                simp only [List.length_singleton] at hi1
                omega
              · intro hne
                right
                simpa using hstop
              · intro habs
                exact absurd habs (by simp)
              · intro s hs
                exact hmem s (List.take_subset _ _ hs)
            · rename_i hcont
              split at h
              · exact absurd h (by simp)
              · rename_i res vs hrec
                simp only [Except.ok.injEq, Prod.mk.injEq] at h
                obtain ⟨rfl, rfl⟩ := h
                have hlen := processCards_length parseIso limit cards seen jobs 0
                rw [hproc] at hlen
                simp only at hlen
                simp only [not_or, not_le] at hcont
                have hbound : limit - jobs2.length ≤ fuel := by omega
                obtain ⟨hA, hB, hC, hD, hE, hF⟩ :=
                  ih (start + 25) seen2 jobs2 res vs hbound hrec
                have hvs : vs ≠ [] := by
                  intro habs
                  have := hE habs
                  omega
                have hmem : ∀ s ∈ jobs2, s ∈ jobs ∨ s.job_id ≠ "" := by
                  intro s hs
                  have hm := processCards_mem parseIso limit cards seen jobs 0 s
                  rw [hproc] at hm
                  exact hm hs
                refine ⟨hA, ?_, ?_, ?_, ?_, ?_⟩
                · intro i hi
                  match i with
                  | 0 => simp
                  | Nat.succ j =>
                    rw [List.get_cons_succ]
                    have := hB j (by simpa using hi)
                    rw [this]
                    omega
                · intro i hi hi1
                  match i with
                  | 0 =>
                    refine ⟨hcont.1, ?_, hcont.2⟩
                    cases cards with
                    | nil => simp at hemp
                    | cons c cs => simp
                  | Nat.succ j =>
                    rw [List.get_cons_succ]
                    exact hC j (by simpa using hi) (by simpa using hi1)
                · intro hne
                  rw [List.getLast_cons hvs]
                  exact hD hvs
                · intro habs
                  exact absurd habs (by simp)
                · intro s hs
                  rcases hF s hs with h2 | h2
                  · exact hmem s h2
                  · exact Or.inr h2

theorem sample_search_eval :
    search_jobsTraced sampleFetchPage (fun _ => none) 5 =
      .ok ([⟨"111", "https://www.linkedin.com/jobs/view/111"⟩],
        [⟨0, 1, 1, 1⟩, ⟨25, 0, 0, 1⟩]) := by
  have hp : processCards (fun _ => none) 5 [sampleCard] [] [] 0 =
      ([⟨"111", "https://www.linkedin.com/jobs/view/111"⟩], ["111"], 1) := by
    decide
  have h2 : searchGo sampleFetchPage (fun _ => none) 5 25 ["111"]
      [⟨"111", "https://www.linkedin.com/jobs/view/111"⟩] =
      .ok ([⟨"111", "https://www.linkedin.com/jobs/view/111"⟩],
        [⟨25, 0, 0, 1⟩]) := by
    rw [searchGo]
    norm_num [sampleFetchPage]
  rw [search_jobsTraced, searchGo]
  norm_num [sampleFetchPage, hp, h2]

/-- C7: the page loop of the search fetches result pages at offsets 0, 25,
50, ... and exits exactly when the collected stubs reach the requested
limit, or a fetched page contributes zero new identifiers, or a page has no
result cards at all: every non-final visited page contributed at least one
new stub, had at least one card, and left the stub count below the limit,
while the final visited page triggers one of the three exit conditions; the
returned stub list never exceeds the limit, and no page at all is visited
only when the limit is zero. -/
theorem page_loop_pagination (fetchPage : Nat → Except String (List JobCard))
    (parseIso : String → Option Int) (limit : Nat) (r : List Stub)
    (t : List PageVisit)
    (h : search_jobsTraced fetchPage parseIso limit = .ok (r, t)) :
    r.length ≤ limit ∧
    (∀ i (hi : i < t.length), (t.get ⟨i, hi⟩).offset = 25 * i) ∧
    (∀ i (hi : i < t.length), i + 1 < t.length →
      (t.get ⟨i, hi⟩).newCount ≠ 0 ∧ (t.get ⟨i, hi⟩).cardCount ≠ 0 ∧
        (t.get ⟨i, hi⟩).lenAfter < limit) ∧
    (∀ hne : t ≠ [], (t.getLast hne).cardCount = 0 ∨
      (t.getLast hne).newCount = 0 ∨ limit ≤ (t.getLast hne).lenAfter) ∧
    (t = [] → limit = 0) := by
  obtain ⟨hA, hB, hC, hD, hE, _⟩ :=
    searchGo_ok_spec fetchPage parseIso limit limit 0 [] [] r t (by simp) h
  refine ⟨hA, ?_, hC, hD, ?_⟩
  · intro i hi
    simpa using hB i hi
  · intro ht
    have h0 := hE ht
    simpa using h0

theorem page_loop_pagination_witness :
    search_jobsTraced sampleFetchPage (fun _ => none) 5 =
      .ok ([⟨"111", "https://www.linkedin.com/jobs/view/111"⟩],
        [⟨0, 1, 1, 1⟩, ⟨25, 0, 0, 1⟩]) ∧
    ([(⟨"111", "https://www.linkedin.com/jobs/view/111"⟩ : Stub)]).length ≤ 5 :=
  ⟨sample_search_eval,
   (page_loop_pagination sampleFetchPage (fun _ => none) 5 _ _
      sample_search_eval).1⟩

/-- C10: every element of a successful search result is one of the
two-field `(job_id, linkedin_url)` records (the `Stub` type embeds the
two-key dictionary built by `services.search_jobs`), its job id is a
nonempty string, and when no detail link was extractable from a card the
parsed URL is `https://www.linkedin.com/jobs/view/` followed by the id. -/
theorem search_stub_shape (fetchPage : Nat → Except String (List JobCard))
    (parseIso : String → Option Int) (limit : Nat) (r : List Stub)
    (h : search_jobs fetchPage parseIso limit = .ok r) :
    (∀ s ∈ r, s.job_id ≠ "") ∧
    (∀ (card : JobCard) (cd : CardData),
      parse_job_card parseIso card = some cd → card.fullLinkHref = none →
      cd.linkedin_url = "https://www.linkedin.com/jobs/view/" ++ cd.job_id) := by
  constructor
  · intro s hs
    unfold search_jobs at h
    cases hgo : search_jobsTraced fetchPage parseIso limit with
    | error e =>
      rw [hgo] at h
      simp [Except.map] at h
    | ok p =>
      rw [hgo] at h
      simp only [Except.map, Except.ok.injEq] at h
      obtain ⟨r', t⟩ := p
      obtain ⟨_, _, _, _, _, hF⟩ := searchGo_ok_spec fetchPage parseIso limit
        limit 0 [] [] r' t (by simp) hgo
      rcases hF s (by rw [← h] at hs; exact hs) with h2 | h2
      · simp at h2
      · exact h2
  · intro card cd hp hlink
    unfold parse_job_card at hp
    rw [hlink] at hp
    simp only at hp
    split at hp
    · split at hp
      · exact absurd hp (by simp)
      · split at hp
        · exact absurd hp (by simp)
        · simp only [Option.some.injEq] at hp
          rw [← hp]
    · simp at hp

theorem search_stub_shape_witness :
    search_jobs sampleFetchPage (fun _ => none) 5 =
      .ok [⟨"111", "https://www.linkedin.com/jobs/view/111"⟩] ∧
    ∀ s ∈ ([(⟨"111", "https://www.linkedin.com/jobs/view/111"⟩ : Stub)]),
      s.job_id ≠ "" := by
  have hs : search_jobs sampleFetchPage (fun _ => none) 5 =
      .ok [⟨"111", "https://www.linkedin.com/jobs/view/111"⟩] := by
    unfold search_jobs
    rw [sample_search_eval]
    rfl
  exact ⟨hs, (search_stub_shape sampleFetchPage (fun _ => none) 5 _ hs).1⟩

theorem searchGo_ok_fetches (fetchPage : Nat → Except String (List JobCard))
    (parseIso : String → Option Int) (limit : Nat) :
    ∀ (fuel start : Nat) (seen : List String) (jobs r : List Stub)
      (t : List PageVisit),
      limit - jobs.length ≤ fuel →
      searchGo fetchPage parseIso limit start seen jobs = .ok (r, t) →
      ∀ i (hi : i < t.length),
        ∃ cards, fetchPage ((t.get ⟨i, hi⟩).offset) = .ok cards ∧
          cards.length = (t.get ⟨i, hi⟩).cardCount := by
  intro fuel
  induction fuel with
  | zero =>
    intro start seen jobs r t hfuel h
    have hle : limit ≤ jobs.length := by omega
    rw [searchGo, if_pos hle] at h
    simp only [Except.ok.injEq, Prod.mk.injEq] at h
    obtain ⟨rfl, rfl⟩ := h
    intro i hi
    simp at hi
  | succ fuel ih =>
    intro start seen jobs r t hfuel h
    rw [searchGo] at h
    by_cases hle : limit ≤ jobs.length
    · rw [if_pos hle] at h
      simp only [Except.ok.injEq, Prod.mk.injEq] at h
      obtain ⟨rfl, rfl⟩ := h
      intro i hi
      simp at hi
    · rw [if_neg hle] at h
      split at h
      · exact absurd h (by simp)
      · rename_i cards hfetch
        split at h
        · rename_i hemp
          simp only [Except.ok.injEq, Prod.mk.injEq] at h
          obtain ⟨rfl, rfl⟩ := h
          intro i hi
          match i with
          | 0 =>
            cases cards with
            | nil => exact ⟨[], hfetch, rfl⟩
            | cons c cs => simp at hemp
          | Nat.succ j => simp at hi
        · rename_i hemp
          split at h
          · rename_i jobs2 seen2 found2 hproc
            split at h
            · rename_i hstop
              simp only [Except.ok.injEq, Prod.mk.injEq] at h
              obtain ⟨rfl, rfl⟩ := h
              intro i hi
              match i with
              | 0 => exact ⟨cards, hfetch, rfl⟩
              | Nat.succ j => simp at hi
            · rename_i hcont
              split at h
              · exact absurd h (by simp)
              · rename_i res vs hrec
                simp only [Except.ok.injEq, Prod.mk.injEq] at h
                obtain ⟨rfl, rfl⟩ := h
                have hlen := processCards_length parseIso limit cards seen jobs 0
                rw [hproc] at hlen
                simp only at hlen
                simp only [not_or, not_le] at hcont
                have hih := ih (start + 25) seen2 jobs2 res vs (by omega) hrec
                intro i hi
                match i with
                | 0 => exact ⟨cards, hfetch, rfl⟩
                | Nat.succ j =>
                  rw [List.get_cons_succ]
                  exact hih j (by simpa using hi)

theorem searchGo_error_source (fetchPage : Nat → Except String (List JobCard))
    (parseIso : String → Option Int) (limit : Nat) :
    ∀ (fuel start : Nat) (seen : List String) (jobs : List Stub) (e : String),
      limit - jobs.length ≤ fuel →
      searchGo fetchPage parseIso limit start seen jobs = .error e →
      ∃ off, fetchPage off = .error e := by
  intro fuel
  induction fuel with
  | zero =>
    intro start seen jobs e hfuel h
    have hle : limit ≤ jobs.length := by omega
    rw [searchGo, if_pos hle] at h
    exact absurd h (by simp)
  | succ fuel ih =>
    intro start seen jobs e hfuel h
    rw [searchGo] at h
    by_cases hle : limit ≤ jobs.length
    · rw [if_pos hle] at h
      exact absurd h (by simp)
    · rw [if_neg hle] at h
      split at h
      · rename_i e2 hfetch
        simp only [Except.error.injEq] at h
        exact ⟨start, by rw [hfetch, h]⟩
      · rename_i cards hfetch
        split at h
        · exact absurd h (by simp)
        · rename_i hemp
          split at h
          · rename_i jobs2 seen2 found2 hproc
            split at h
            · exact absurd h (by simp)
            · rename_i hcont
              split at h
              · rename_i e2 hrec
                simp only [Except.error.injEq] at h
                subst h
                have hlen := processCards_length parseIso limit cards seen jobs 0
                rw [hproc] at hlen
                simp only at hlen
                simp only [not_or, not_le] at hcont
                exact ih (start + 25) seen2 jobs2 e2 (by omega) hrec
              · exact absurd h (by simp)

/-- C5: a transport failure is fatal to the enclosing call and is
propagated as the distinct fetch-failed condition, never retried and never
silently absorbed. For the search: a fetch failure at the first page, and
more generally at any state the page loop can be in (any offset, any
already-seen ids, any stubs collected so far), makes the whole call return
exactly that error; a successful result certifies that every page the loop
visited was fetched without a transport failure; an error result always
carries verbatim the error of some actual page fetch (never fabricated);
and the loop never retries an offset (all visited offsets are distinct).
For the detail fetch: a raised fetch error yields `none`, which a
successfully fetched page can never produce, so `none` is the distinct
fetch-failed condition. A per-card parse failure, by contrast, merely
skips the card and the rest of the page is still processed. -/
theorem transport_failure_policy :
    (∀ (fetchPage : Nat → Except String (List JobCard))
      (parseIso : String → Option Int) (limit : Nat) (e : String),
      0 < limit → fetchPage 0 = .error e →
      search_jobs fetchPage parseIso limit = .error e) ∧
    (∀ (fetchPage : Nat → Except String (List JobCard))
      (parseIso : String → Option Int) (limit start : Nat)
      (seen : List String) (jobs : List Stub) (e : String),
      jobs.length < limit → fetchPage start = .error e →
      searchGo fetchPage parseIso limit start seen jobs = .error e) ∧
    (∀ (fetchPage : Nat → Except String (List JobCard))
      (parseIso : String → Option Int) (limit : Nat) (r : List Stub)
      (t : List PageVisit),
      search_jobsTraced fetchPage parseIso limit = .ok (r, t) →
      ∀ i (hi : i < t.length),
        ∃ cards, fetchPage ((t.get ⟨i, hi⟩).offset) = .ok cards ∧
          cards.length = (t.get ⟨i, hi⟩).cardCount) ∧
    (∀ (fetchPage : Nat → Except String (List JobCard))
      (parseIso : String → Option Int) (limit : Nat) (e : String),
      search_jobs fetchPage parseIso limit = .error e →
      ∃ off, fetchPage off = .error e) ∧
    (∀ (fetchD : String → Except String DetailPage)
      (parseIso : String → Option Int) (now : Int) (jid e : String),
      fetchD jid = .error e →
      get_job_details fetchD parseIso now jid = none) ∧
    (∀ (fetchD : String → Except String DetailPage)
      (parseIso : String → Option Int) (now : Int) (jid : String)
      (page : DetailPage),
      fetchD jid = .ok page →
      get_job_details fetchD parseIso now jid ≠ none) ∧
    (∀ (parseIso : String → Option Int) (limit : Nat) (card : JobCard)
      (rest : List JobCard) (seen : List String) (jobs : List Stub) (f : Nat),
      parse_job_card parseIso card = none →
      processCards parseIso limit (card :: rest) seen jobs f =
        processCards parseIso limit rest seen jobs f) ∧
    (∀ (fetchPage : Nat → Except String (List JobCard))
      (parseIso : String → Option Int) (limit : Nat) (r : List Stub)
      (t : List PageVisit),
      search_jobsTraced fetchPage parseIso limit = .ok (r, t) →
      (t.map PageVisit.offset).Nodup) := by
  refine ⟨?_, ?_, ?_, ?_, ?_, ?_, ?_, ?_⟩
  · intro fetchPage parseIso limit e hpos hfe
    have hn : ¬ limit ≤ ([] : List Stub).length := by
      simp
      omega
    unfold search_jobs search_jobsTraced
    rw [searchGo, if_neg hn, hfe]
    rfl
  · intro fetchPage parseIso limit start seen jobs e hlt hfe
    rw [searchGo, if_neg (by omega : ¬ limit ≤ jobs.length), hfe]
  · intro fetchPage parseIso limit r t h i hi
    exact searchGo_ok_fetches fetchPage parseIso limit limit 0 [] [] r t
      (by simp) h i hi
  · intro fetchPage parseIso limit e h
    unfold search_jobs search_jobsTraced at h
    cases hgo : searchGo fetchPage parseIso limit 0 [] [] with
    | error e2 =>
      rw [hgo] at h
      simp only [Except.map, Except.error.injEq] at h
      subst h
      exact searchGo_error_source fetchPage parseIso limit limit 0 [] [] e2
        (by simp) hgo
    | ok p =>
      rw [hgo] at h
      simp [Except.map] at h
  · intro fetchD parseIso now jid e hfe
    unfold get_job_details
    rw [hfe]
  · intro fetchD parseIso now jid page hfp
    unfold get_job_details
    rw [hfp]
    simp
  · intro parseIso limit card rest seen jobs f hp
    by_cases hle : limit ≤ jobs.length
    · rw [processCards_stopped parseIso limit _ seen jobs f hle,
        processCards_stopped parseIso limit _ seen jobs f hle]
    · rw [processCards, if_neg hle, hp]
  · intro fetchPage parseIso limit r t h
    obtain ⟨_, hB, _, _, _, _⟩ := searchGo_ok_spec fetchPage parseIso limit
      limit 0 [] [] r t (by simp) h
    rw [List.nodup_iff_injective_get]
    intro a b hab
    rw [List.get_map, List.get_map] at hab
    have ha := hB a.1 (by have := a.2; simpa using this)
    have hb := hB b.1 (by have := b.2; simpa using this)
    rw [ha, hb] at hab
    apply Fin.ext
    omega

theorem transport_failure_policy_witness :
    search_jobs (fun _ => .error "down") (fun _ => none) 5 = .error "down" ∧
    searchGo (fun off => if off = 0 then .ok [sampleCard] else .error "down")
      (fun _ => none) 5 25 ["111"]
      [⟨"111", "https://www.linkedin.com/jobs/view/111"⟩] = .error "down" ∧
    get_job_details (fun _ => .error "down") (fun _ => none) 0 "1" = none ∧
    get_job_details (fun _ => .ok noTitlePage) (fun _ => none) 0 "1" ≠ none :=
  ⟨transport_failure_policy.1 (fun _ => .error "down") (fun _ => none) 5 "down"
      (by decide) rfl,
   transport_failure_policy.2.1
      (fun off => if off = 0 then .ok [sampleCard] else .error "down")
      (fun _ => none) 5 25 ["111"]
      [⟨"111", "https://www.linkedin.com/jobs/view/111"⟩] "down"
      (by decide) rfl,
   transport_failure_policy.2.2.2.2.1 (fun _ => .error "down") (fun _ => none)
      0 "1" "down" rfl,
   transport_failure_policy.2.2.2.2.2.1 (fun _ => .ok noTitlePage)
      (fun _ => none) 0 "1" noTitlePage rfl⟩

theorem lookup_none_iff :
    ∀ (m : List (String × String)) (id : String),
      m.lookup id = none ↔ id ∉ m.map Prod.fst
  | [], id => by simp [List.lookup]
  | (k, v) :: m, id => by
    by_cases h : id = k
    · have hbeq : (id == k) = true := beq_iff_eq.mpr h
      simp [List.lookup, hbeq, h]
    · have hbeq : (id == k) = false := beq_eq_false_iff_ne.mpr h
      simp [List.lookup, hbeq, h, lookup_none_iff m id]

theorem lookup_append_some (m m2 : List (String × String)) (id url : String)
    (h : m.lookup id = some url) : (m ++ m2).lookup id = some url := by
  induction m with
  | nil => simp [List.lookup] at h
  | cons p m ih =>
    obtain ⟨k, v⟩ := p
    by_cases hk : id = k
    · have hbeq : (id == k) = true := beq_iff_eq.mpr hk
      simp [List.lookup, hbeq] at h ⊢
      exact h
    · have hbeq : (id == k) = false := beq_eq_false_iff_ne.mpr hk
      simp [List.lookup, hbeq] at h ⊢
      exact ih h

theorem lookup_append_ne (m : List (String × String)) (k v id : String)
    (hne : id ≠ k) : (m ++ [(k, v)]).lookup id = m.lookup id := by
  induction m with
  | nil =>
    have hbeq : (id == k) = false := beq_eq_false_iff_ne.mpr hne
    simp [List.lookup, hbeq]
  | cons p m ih =>
    obtain ⟨k2, v2⟩ := p
    by_cases hk : id = k2
    · have hbeq : (id == k2) = true := beq_iff_eq.mpr hk
      simp [List.lookup, hbeq]
    · have hbeq : (id == k2) = false := beq_eq_false_iff_ne.mpr hk
      simp [List.lookup, hbeq, ih]

theorem lookup_append_self (m : List (String × String)) (id url : String)
    (h : m.lookup id = none) : (m ++ [(id, url)]).lookup id = some url := by
  induction m with
  | nil => simp [List.lookup]
  | cons p m ih =>
    obtain ⟨k2, v2⟩ := p
    by_cases hk : id = k2
    · have hbeq : (id == k2) = true := beq_iff_eq.mpr hk
      simp [List.lookup, hbeq] at h
    · have hbeq : (id == k2) = false := beq_eq_false_iff_ne.mpr hk
      simp only [List.cons_append, List.lookup_cons, hbeq] at h ⊢
      exact ih h

theorem insStub_lookup_mono (m : List (String × String)) (s : Stub)
    (id url : String) (h : m.lookup id = some url) :
    (insStub m s).lookup id = some url := by
  unfold insStub
  split
  · exact h
  · exact lookup_append_some m _ id url h

theorem foldl_insStub_lookup_mono (stubs : List Stub) :
    ∀ (m : List (String × String)) (id url : String),
      m.lookup id = some url → (stubs.foldl insStub m).lookup id = some url := by
  induction stubs with
  | nil => intro m id url h; simpa using h
  | cons s stubs ih =>
    intro m id url h
    rw [List.foldl_cons]
    exact ih (insStub m s) id url (insStub_lookup_mono m s id url h)

theorem insStub_nodup (m : List (String × String)) (s : Stub)
    (h : (m.map Prod.fst).Nodup) : ((insStub m s).map Prod.fst).Nodup := by
  unfold insStub
  split
  · exact h
  · rename_i hcond
    rw [not_or] at hcond
    have hnone : m.lookup s.job_id = none := by
      cases hl : m.lookup s.job_id with
      | none => rfl
      | some u => exact absurd (by rw [hl]; rfl) hcond.2
    rw [List.map_append, List.nodup_append]
    refine ⟨h, by simp, ?_⟩
    intro a ha hb
    simp only [List.map_cons, List.map_nil, List.mem_singleton] at hb
    rw [hb] at ha
    exact (lookup_none_iff m s.job_id).mp hnone ha

theorem insStub_length_mono (m : List (String × String)) (s : Stub) :
    m.length ≤ (insStub m s).length := by
  unfold insStub
  split
  · exact le_refl _
  · simp

theorem foldl_insStub_first (stubs : List Stub) :
    ∀ (m : List (String × String)) (id : String), id ≠ "" →
      m.lookup id = none →
      (stubs.foldl insStub m).lookup id =
        (stubs.find? (fun s => s.job_id = id)).map Stub.linkedin_url := by
  induction stubs with
  | nil =>
    intro m id _ h2
    simpa using h2
  | cons s stubs ih =>
    intro m id h1 h2
    rw [List.foldl_cons, List.find?_cons]
    by_cases hs : s.job_id = id
    · have hins : insStub m s = m ++ [(s.job_id, s.linkedin_url)] := by
        unfold insStub
        rw [if_neg]
        rw [not_or]
        constructor
        · rw [hs]; exact h1
        · rw [hs, h2]; simp
      have hl : (insStub m s).lookup id = some s.linkedin_url := by
        rw [hins, hs]
        exact lookup_append_self m id _ (by rw [← hs] at h2 ⊢; exact h2)
      rw [foldl_insStub_lookup_mono stubs _ id _ hl]
      simp [hs]
    · have hl : (insStub m s).lookup id = none := by
        unfold insStub
        split
        · exact h2
        · rw [lookup_append_ne m _ _ id (fun hc => hs hc.symm)]
          exact h2
      rw [ih (insStub m s) id h1 hl]
      simp [hs]

theorem perProfileLimit_zero (n idx : Nat) : perProfileLimit 0 n idx = 0 := by
  simp [perProfileLimit]

theorem collectGo_zero (searchFn : Nat → Nat → Except String (List Stub))
    (n : Nat) :
    ∀ (idxs : List Nat) (m : List (String × String)),
      collectGo searchFn 0 n idxs m = .ok (m, [])
  | [], m => rfl
  | idx :: rest, m => by
    rw [collectGo, perProfileLimit_zero, if_pos rfl]
    exact collectGo_zero searchFn n rest m

theorem foldl_insStub_nodup (stubs : List Stub) :
    ∀ m : List (String × String), (m.map Prod.fst).Nodup →
      ((stubs.foldl insStub m).map Prod.fst).Nodup := by
  induction stubs with
  | nil => intro m h0; exact h0
  | cons s stubs ih => intro m h0; exact ih (insStub m s) (insStub_nodup m s h0)

theorem collectGo_ok_spec (searchFn : Nat → Nat → Except String (List Stub))
    (L n : Nat) :
    ∀ (idxs : List Nat) (m mf : List (String × String))
      (calls : List SearchCall),
      collectGo searchFn L n idxs m = .ok (mf, calls) →
      ((m.map Prod.fst).Nodup → (mf.map Prod.fst).Nodup) ∧
      (∀ id url, m.lookup id = some url → mf.lookup id = some url) ∧
      (m.length < L → ∀ c ∈ calls, c.sizeBefore < L)
  | [], m, mf, calls => by
    intro h
    simp only [collectGo, Except.ok.injEq, Prod.mk.injEq] at h
    obtain ⟨rfl, rfl⟩ := h
    exact ⟨id, fun _ _ h => h, by simp⟩
  | idx :: rest, m, mf, calls => by
    intro h
    rw [collectGo] at h
    split at h
    · obtain ⟨h1, h2, h3⟩ := collectGo_ok_spec searchFn L n rest m mf calls h
      exact ⟨h1, h2, h3⟩
    · split at h
      · exact absurd h (by simp)
      · rename_i stubs hsf
        have hmono : ∀ id url, m.lookup id = some url →
            (stubs.foldl insStub m).lookup id = some url :=
          fun id url hl => foldl_insStub_lookup_mono stubs m id url hl
        have hnd : (m.map Prod.fst).Nodup →
            ((stubs.foldl insStub m).map Prod.fst).Nodup :=
          foldl_insStub_nodup stubs m
        simp only [] at h
        split at h
        · rename_i hbreak
          simp only [Except.ok.injEq, Prod.mk.injEq] at h
          obtain ⟨rfl, rfl⟩ := h
          refine ⟨hnd, hmono, ?_⟩
          intro hlt c hc
          simp only [List.mem_singleton] at hc
          rw [hc]
          exact hlt
        · rename_i hsmall
          split at h
          · exact absurd h (by simp)
          · rename_i mf2 calls2 hrec
            simp only [Except.ok.injEq, Prod.mk.injEq] at h
            obtain ⟨rfl, rfl⟩ := h
            obtain ⟨h1, h2, h3⟩ :=
              collectGo_ok_spec searchFn L n rest _ mf2 calls2 hrec
            refine ⟨fun h0 => h1 (hnd h0), fun id url hl => h2 id url (hmono id url hl), ?_⟩
            intro hlt c hc
            simp only [List.mem_cons] at hc
            rcases hc with hc | hc
            · rw [hc]
              exact hlt
            · exact h3 (by omega) c hc

theorem enrichGo_append (details : String → Option JobDetails) :
    ∀ (ids : List String) (store : Store) (e f : Nat),
      ∃ new, (enrichGo details ids store e f).1 = store ++ new ∧
        ∀ rrow ∈ new, rrow.job_id ∈ ids
  | [], store, e, f => ⟨[], by simp [enrichGo], by simp⟩
  | jid :: rest, store, e, f => by
    rw [enrichGo]
    cases hd : details jid with
    | none =>
      obtain ⟨new, h1, h2⟩ := enrichGo_append details rest store e (f + 1)
      exact ⟨new, h1, fun rrow hr => by simp [h2 rrow hr]⟩
    | some jd =>
      simp only
      split
      · obtain ⟨new, h1, h2⟩ := enrichGo_append details rest store e (f + 1)
        exact ⟨new, h1, fun rrow hr => by simp [h2 rrow hr]⟩
      · obtain ⟨new, h1, h2⟩ :=
          enrichGo_append details rest (store ++ [mkListing jid jd]) (e + 1) f
        refine ⟨mkListing jid jd :: new, by simpa using h1, ?_⟩
        intro rrow hr
        rcases List.mem_cons.mp hr with hc | hc
        · rw [hc]
          simp [mkListing]
        · simp [h2 rrow hc]

theorem searchAndEnrich_append (store : Store) (n L : Nat)
    (searchFn : Nat → Nat → Except String (List Stub))
    (details : String → Option JobDetails) (res : RunResult)
    (h : searchAndEnrich store n L searchFn details = .ok res) :
    ∃ new, res.store = store ++ new ∧
      ∀ rrow ∈ new, rrow.job_id ∉ store.map JobListing.job_id := by
  unfold searchAndEnrich at h
  split at h
  · exact absurd h (by simp)
  · rename_i m calls hcol
    simp only [] at h
    split at h
    · simp only [Except.ok.injEq] at h
      exact ⟨[], by rw [← h]; simp, by simp⟩
    · simp only [Except.ok.injEq] at h
      obtain ⟨new, h1, h2⟩ := enrichGo_append details
        ((((m.map Prod.fst).take L)).filter
          (fun jid => jid ∉ store.map JobListing.job_id)) store 0 0
      refine ⟨new, by rw [← h]; exact h1, ?_⟩
      intro rrow hr
      have h3 := h2 rrow hr
      simp only [List.mem_filter, decide_not] at h3
      have hdec := h3.2
      simpa using hdec

/-- C2: dedup correctness of the orchestration: the deduplicated id list of
a run has no duplicate ids and its length never exceeds `totalLimit`; the
profile loop never issues another search once the cumulative unique count
has reached `totalLimit` (every issued search saw a strictly smaller
count); and the first occurrence of an id wins — a binding already in
`jobs_by_id` survives every later stub fold, and starting from the empty
dict an id is bound to the URL of its first stub. -/
theorem dedup_correctness (store : Store) (n L : Nat)
    (searchFn : Nat → Nat → Except String (List Stub))
    (details : String → Option JobDetails) (res : RunResult)
    (m : List (String × String)) (calls : List SearchCall)
    (hrun : searchAndEnrich store n L searchFn details = .ok res)
    (hcol : collectJobs searchFn L n = .ok (m, calls)) :
    res.uniqueIds.Nodup ∧
    res.uniqueIds.length ≤ L ∧
    (∀ c ∈ calls, c.sizeBefore < L) ∧
    (∀ (m' : List (String × String)) (id url : String) (stubs : List Stub),
      m'.lookup id = some url → (stubs.foldl insStub m').lookup id = some url) ∧
    (∀ (stubs : List Stub) (id : String), id ≠ "" →
      (stubs.foldl insStub []).lookup id =
        (stubs.find? (fun s => s.job_id = id)).map Stub.linkedin_url) := by
  have hcol' : collectGo searchFn L n (List.range n) [] = .ok (m, calls) := hcol
  have hkeys : (m.map Prod.fst).Nodup :=
    (collectGo_ok_spec searchFn L n (List.range n) [] m calls hcol').1 (by simp)
  have hcalls : ∀ c ∈ calls, c.sizeBefore < L := by
    rcases Nat.eq_zero_or_pos L with hL | hL
    · subst hL
      have h0 := collectGo_zero searchFn n (List.range n) []
      rw [h0] at hcol'
      simp only [Except.ok.injEq, Prod.mk.injEq] at hcol'
      rw [← hcol'.2]
      simp
    · exact (collectGo_ok_spec searchFn L n (List.range n) [] m calls
        hcol').2.2 (by simpa using hL)
  have hres : res.uniqueIds = (m.map Prod.fst).take L ∨ res.uniqueIds = [] := by
    unfold searchAndEnrich at hrun
    rw [hcol] at hrun
    simp only [] at hrun
    split at hrun
    · simp only [Except.ok.injEq] at hrun
      right
      rw [← hrun]
    · simp only [Except.ok.injEq] at hrun
      left
      rw [← hrun]
  refine ⟨?_, ?_, hcalls, ?_, ?_⟩
  · rcases hres with hres | hres
    · rw [hres]
      exact hkeys.sublist (List.take_sublist L _)
    · rw [hres]
      exact List.nodup_nil
  · rcases hres with hres | hres
    · rw [hres, List.length_take]
      exact Nat.min_le_left _ _
    · rw [hres]
      simp
  · intro m' id url stubs hl
    exact foldl_insStub_lookup_mono stubs m' id url hl
  · intro stubs id hid
    exact foldl_insStub_first stubs [] id hid rfl

theorem dedup_correctness_witness :
    searchAndEnrich [] 1 2 (fun _ _ => .ok [⟨"a", "u"⟩]) (fun _ => none) =
      .ok ⟨[], [], ["a"], 0, 0, 1⟩ ∧
    collectJobs (fun _ _ => .ok [⟨"a", "u"⟩]) 2 1 =
      .ok ([("a", "u")], [⟨0, 2, 0⟩]) ∧
    (RunResult.uniqueIds ⟨[], [], ["a"], 0, 0, 1⟩).Nodup :=
  ⟨rfl, rfl,
   (dedup_correctness [] 1 2 (fun _ _ => .ok [⟨"a", "u"⟩]) (fun _ => none)
      ⟨[], [], ["a"], 0, 0, 1⟩ [("a", "u")] [⟨0, 2, 0⟩] rfl rfl).1⟩

/-- C8: frame property of an orchestration run: the store after a
successful `searchAndEnrich` run is the old store with new rows appended,
and every appended row has a job id that was absent from the store before
the run — pre-existing rows are never updated, reordered or deleted (they
survive verbatim as the prefix). -/
theorem run_frame_property (store : Store) (n L : Nat)
    (searchFn : Nat → Nat → Except String (List Stub))
    (details : String → Option JobDetails) (res : RunResult)
    (h : searchAndEnrich store n L searchFn details = .ok res) :
    ∃ new, res.store = store ++ new ∧
      ∀ rrow ∈ new, rrow.job_id ∉ store.map JobListing.job_id :=
  searchAndEnrich_append store n L searchFn details res h

theorem run_frame_property_witness :
    searchAndEnrich [sampleListing] 1 2 (fun _ _ => .ok [⟨"a", "u"⟩])
      (fun _ => none) = .ok ⟨[sampleListing], [], ["a"], 0, 0, 1⟩ ∧
    ∃ new, (RunResult.store ⟨[sampleListing], [], ["a"], 0, 0, 1⟩) =
      [sampleListing] ++ new ∧
      ∀ rrow ∈ new, rrow.job_id ∉ [sampleListing].map JobListing.job_id :=
  ⟨rfl,
   run_frame_property [sampleListing] 1 2 (fun _ _ => .ok [⟨"a", "u"⟩])
      (fun _ => none) ⟨[sampleListing], [], ["a"], 0, 0, 1⟩ rfl⟩

/-- C1: enrichment monotonicity: a record already in the store is never
touched by a run — it survives with every field unchanged, and any record
in the post-run store carrying its job id is that very record, so its
`description`, `employment_type` and `experience_level` are never set to a
different value (empty or not) and no stored state that an enrichment flag
could be derived from ever regresses. The persisted model has no
`is_enriched` column; the API schema reports the flag with its constant
default, so it can never flip from true to false. -/
theorem enrichment_monotonic (store : Store) (n L : Nat)
    (searchFn : Nat → Nat → Except String (List Stub))
    (details : String → Option JobDetails) (res : RunResult) (R : JobListing)
    (hnd : (store.map JobListing.job_id).Nodup)
    (h : searchAndEnrich store n L searchFn details = .ok res)
    (hR : R ∈ store) :
    R ∈ res.store ∧
    ∀ R2 ∈ res.store, R2.job_id = R.job_id →
      R2 = R ∧ R2.description = R.description ∧
      R2.employment_type = R.employment_type ∧
      R2.experience_level = R.experience_level := by
  obtain ⟨new, hst, hnew⟩ := searchAndEnrich_append store n L searchFn details res h
  constructor
  · rw [hst]
    exact List.mem_append_left _ hR
  · intro R2 hR2 hid
    rw [hst] at hR2
    rcases List.mem_append.mp hR2 with h2 | h2
    · have he : R2 = R := List.inj_on_of_nodup_map hnd h2 hR hid
      exact ⟨he, by rw [he], by rw [he], by rw [he]⟩
    · exact absurd (by rw [hid]; exact List.mem_map_of_mem JobListing.job_id hR)
        (hnew R2 h2)

theorem enrichment_monotonic_witness :
    searchAndEnrich [sampleListing] 1 2 (fun _ _ => .ok [⟨"a", "u"⟩])
      (fun _ => none) = .ok ⟨[sampleListing], [], ["a"], 0, 0, 1⟩ ∧
    sampleListing ∈ RunResult.store ⟨[sampleListing], [], ["a"], 0, 0, 1⟩ :=
  ⟨rfl,
   (enrichment_monotonic [sampleListing] 1 2 (fun _ _ => .ok [⟨"a", "u"⟩])
      (fun _ => none) ⟨[sampleListing], [], ["a"], 0, 0, 1⟩ sampleListing
      (by decide) rfl (by simp)).1⟩

end AutoApply
